import Mathlib

/-!
# Verification of the pong world model (`src/main.rs`)

Shallow embedding of the core of the repository: the geometry primitives
(`Vector`, `Rect`), the entity state (`Player`, `Ball`, `World`), the per-tick
update (`World::update`, `World::update_player`) and the rasterizer
(`World::draw_rect`, `World::draw`).

Modelling conventions:
* Rust `i32` fields are modelled as `Int`.  No arithmetic in the verified
  claims approaches the `i32` range, so wrap-around is not modelled.
* Rust `f32` fields (the ball velocity vector) are modelled as `Rat`.  Every
  float value reachable in the program is an exact small value (components
  stay in `{-1, 0, 1, 2}` where all `f32` arithmetic performed on them is
  exact), so the rational model is faithful on the reachable states.
  `f32::round` (round half away from zero) is modelled by `roundAway`.
* The pixel frame buffer is a structure carrying its byte length and its
  contents as a function `Nat → Nat`; the `copy_from_slice` call in
  `draw_rect`, which panics when the slice `[index, index+4)` is out of
  bounds, is modelled by `writeSlice` returning `Option` (`none` = panic).
-/


/-! ## Definitions of auxiliary concrete states and the frame model -/

/-- Screen width in pixels (`WIDTH` in the source). -/
def WIDTH : Int := 320

/-- Screen height in pixels (`HEIGHT` in the source). -/
def HEIGHT : Int := 240

/-- Paddle width (`PLAYER_WIDTH`). -/
def PLAYER_WIDTH : Int := 32

/-- Paddle height (`PLAYER_HEIGHT`). -/
def PLAYER_HEIGHT : Int := 5

/-- Rust `Vector { x, y, w: f32 }` from the source, with `f32` modelled as `Rat`. -/
structure Vector where
  x : Rat
  y : Rat
  w : Rat
deriving DecidableEq, Repr

/-- Source `Vector::dot`: 2D dot product; the `w` components are ignored. -/
def Vector.dot (self other : Vector) : Rat :=
  self.x * other.x + self.y * other.y

/-- Source `Vector::reflection`: `angle = self·normal`, result components
`self.x - (2*angle)*normal.x`, `self.y - (2*angle)*normal.y`, and the `w`
field comes from `..Default::default()`, hence `0`. -/
def Vector.reflection (self normal : Vector) : Vector :=
  let angle := self.dot normal
  { x := self.x - (2 * angle) * normal.x
    y := self.y - (2 * angle) * normal.y
    w := 0 }

/-- Rust `Rect { x, y, width, height: i32 }` from the source. -/
structure Rect where
  x : Int
  y : Int
  width : Int
  height : Int
deriving DecidableEq, Repr

/-- Source `Rect::overlaps`: closed-interval intersection test on both axes. -/
def Rect.overlaps (self other : Rect) : Bool :=
  let horizontal :=
    decide (self.x ≤ other.x + other.width) && decide (self.x + self.width ≥ other.x)
  let vertical :=
    decide (self.y ≤ other.y + other.height) && decide (self.y + self.height ≥ other.y)
  vertical && horizontal

/-- Rust `Player { rect, velocity: i32 }` from the source. -/
structure Player where
  rect : Rect
  velocity : Int
deriving DecidableEq, Repr

/-- Rust `Ball { rect, velocity: Vector }` from the source. -/
structure Ball where
  rect : Rect
  velocity : Vector
deriving DecidableEq, Repr

/-- Rust `World { p1, ball, p2 }` from the source. -/
structure World where
  p1 : Player
  ball : Ball
  p2 : Player
deriving DecidableEq, Repr

/-- Source `World::new`: fixed initial state. -/
def World.new : World :=
  { p1 := { rect := { x := WIDTH / 2, y := HEIGHT - PLAYER_HEIGHT - 1
                      width := PLAYER_WIDTH, height := PLAYER_HEIGHT }
            velocity := 0 }
    ball := { rect := { x := WIDTH / 2, y := HEIGHT / 2, width := 5, height := 5 }
              velocity := { x := 1, y := 1, w := 0 } }
    p2 := { rect := { x := WIDTH / 2, y := 1
                      width := PLAYER_WIDTH, height := PLAYER_HEIGHT }
            velocity := 2 } }

/-- Source `World::update_player`: tentative `newp = x + velocity`; commit only when
`newp > 0 && newp + width < WIDTH`, otherwise the player is unchanged. -/
def World.update_player (p : Player) : Player :=
  let newp := p.rect.x + p.velocity
  if newp > 0 ∧ newp + p.rect.width < WIDTH then
    { p with rect := { p.rect with x := newp } }
  else
    p

/-- Semantics of `f32::round`: round half away from zero, on the rational model. -/
def roundAway (q : Rat) : Int :=
  if 0 ≤ q then ⌊q + 1/2⌋ else ⌈q - 1/2⌉

/-- The AI direction-correction step at the start of `World::update`: the
value assigned to `p2.velocity` before the paddles move. -/
def World.aiVelocity (w : World) : Int :=
  if w.ball.velocity.x > 0 ∧ w.p2.velocity < 0 then 1
  else if w.ball.velocity.x < 0 ∧ w.p2.velocity > 0 then -1
  else w.p2.velocity

/-- Paddle `p2` after the direction correction and `update_player` move. -/
def World.movedP2 (w : World) : Player :=
  World.update_player { w.p2 with velocity := w.aiVelocity }

/-- Paddle `p1` after its `update_player` move. -/
def World.movedP1 (w : World) : Player :=
  World.update_player w.p1

/-- The ball rect after the position step
(`x += velocity.x.round() as i32`, `y += velocity.y.round() as i32`). -/
def World.movedBallRect (w : World) : Rect :=
  { w.ball.rect with
    x := w.ball.rect.x + roundAway w.ball.velocity.x
    y := w.ball.rect.y + roundAway w.ball.velocity.y }

/-- The collision-resolution chain of `World::update`: the `ball_v` value
committed at the end of the tick.  The four conditions are tested in the
source's order on the post-move rects; the first match wins. -/
def World.resolveVelocity (w : World) : Vector :=
  if (w.movedBallRect).overlaps w.movedP2.rect then
    w.ball.velocity.reflection { x := 0, y := 1, w := 0 }
  else if (w.movedBallRect).overlaps w.movedP1.rect then
    w.ball.velocity.reflection { x := 0, y := -1, w := 0 }
  else if w.movedBallRect.x ≤ 0 then
    w.ball.velocity.reflection { x := 1, y := 0, w := 0 }
  else if w.movedBallRect.x + w.movedBallRect.width ≥ WIDTH then
    w.ball.velocity.reflection { x := -1, y := 0, w := 0 }
  else
    w.ball.velocity

/-- Source `World::update`: AI correction, paddle moves, ball move, collision
resolution, commit of the new ball velocity.  (The source also computes a
local `center_p2` which it never reads; it is omitted.) -/
def World.update (w : World) : World :=
  { p1 := w.movedP1
    ball := { rect := w.movedBallRect, velocity := w.resolveVelocity }
    p2 := w.movedP2 }

/-- States reachable from `World::new` by repeated `update` calls. -/
inductive World.Reachable : World → Prop
  | init : World.Reachable World.new
  | step {w : World} : World.Reachable w → World.Reachable w.update

/-- A state where the moved ball overlaps p2 while the left-wall condition
also holds, used as the C2 witness input. -/
def pongBoth : World :=
  World.mk
    (Player.mk (Rect.mk 200 100 32 5) 0)
    (Ball.mk (Rect.mk (-2) 8 5 5) (Vector.mk (-1) 1 0))
    (Player.mk (Rect.mk (-10) 10 32 5) 0)

/-- A state with the ball far above the screen (`y < 0`), used as the C5
witness input. -/
def pongAbove : World :=
  World.mk
    (Player.mk (Rect.mk 100 234 32 5) 0)
    (Ball.mk (Rect.mk 50 (-30) 5 5) (Vector.mk 1 (-1) 0))
    (Player.mk (Rect.mk 100 1 32 5) 0)

/-- Closed form of the first 154 ticks from `World::new`: the ball heads
down-right at `(+1, +1)`, p1 never moves, p2 slides right at `+2` until it
parks at `x = 286`. -/
def traceState (n : Nat) : World :=
  World.mk
    (Player.mk (Rect.mk 160 234 32 5) 0)
    (Ball.mk (Rect.mk (160 + (n : Int)) (120 + (n : Int)) 5 5) (Vector.mk 1 1 0))
    (Player.mk (Rect.mk (160 + 2 * min (n : Int) 63) 1 32 5) 2)

/-- The state after 155 ticks from `World::new`: the ball has just bounced
off the right wall (velocity `(-1, +1)`) while p2 still has its initial
speed 2. -/
def pong155 : World :=
  World.mk
    (Player.mk (Rect.mk 160 234 32 5) 0)
    (Ball.mk (Rect.mk 315 275 5 5) (Vector.mk (-1) 1 0))
    (Player.mk (Rect.mk 286 1 32 5) 2)

/-- A state with a leftward ball and p2 already at speed 1, the C4 witness
input. -/
def pongFlip : World :=
  World.mk
    (Player.mk (Rect.mk 100 234 32 5) 0)
    (Ball.mk (Rect.mk 100 100 5 5) (Vector.mk (-1) 1 0))
    (Player.mk (Rect.mk 100 1 32 5) 1)

/-- The RGBA frame buffer: its byte length and its contents. -/
structure Frame where
  len : Nat
  data : Nat → Nat

/-- Model of `frame[index..index + 4].copy_from_slice(&color)`: writes the four color
bytes at `index`; `none` models the panic when the slice is out of bounds. -/
def writeSlice (f : Frame) (index : Nat) (color : Nat → Nat) : Option Frame :=
  if index + 4 ≤ f.len then
    some ⟨f.len, fun b => if index ≤ b ∧ b < index + 4 then color (b - index) else f.data b⟩
  else
    none

/-- Offset `(j + i * WIDTH as i32) as usize * 4`: the byte offset of pixel
`(j, i)` (both in range whenever this is used). -/
def pixIdx (j i : Int) : Nat :=
  (j + i * WIDTH).toNat * 4

/-- The inner `for j in rect.x..rect.x + rect.width` loop of `draw_rect`,
with the remaining iteration count `n` and current column `j`; columns
outside `[0, WIDTH)` are skipped. -/
def drawRectCols (f : Frame) (i : Int) (j : Int) (n : Nat) (color : Nat → Nat) :
    Option Frame :=
  match n with
  | 0 => some f
  | Nat.succ m =>
    if j ≥ WIDTH ∨ j < 0 then
      drawRectCols f i (j + 1) m color
    else
      match writeSlice f (pixIdx j i) color with
      | none => none
      | some f2 => drawRectCols f2 i (j + 1) m color

/-- The outer `for i in rect.y..rect.y + rect.height` loop of `draw_rect`;
rows outside `[0, HEIGHT)` are skipped before the inner loop runs. -/
def drawRectRows (f : Frame) (rect : Rect) (i : Int) (n : Nat) (color : Nat → Nat) :
    Option Frame :=
  match n with
  | 0 => some f
  | Nat.succ m =>
    if i ≥ HEIGHT ∨ i < 0 then
      drawRectRows f rect (i + 1) m color
    else
      match drawRectCols f i rect.x rect.width.toNat color with
      | none => none
      | some f2 => drawRectRows f2 rect (i + 1) m color

/-- Source `World::draw_rect`. -/
def World.draw_rect (f : Frame) (rect : Rect) (color : Nat → Nat) : Option Frame :=
  drawRectRows f rect rect.y rect.height.toNat color

/-- Model of `frame.fill(0x00)`. -/
def clearFrame (f : Frame) : Frame :=
  ⟨f.len, fun _ => 0⟩

/-- Fill color of p1, `[0xff, 0, 0, 0xff]`. -/
def colorA : Nat → Nat := fun k => [255, 0, 0, 255].getD k 0

/-- Fill color of p2, `[0, 0xff, 0, 0xff]`. -/
def colorB : Nat → Nat := fun k => [0, 255, 0, 255].getD k 0

/-- Fill color of the ball, `[0xff, 0xff, 0xff, 0xff]`. -/
def colorC : Nat → Nat := fun k => [255, 255, 255, 255].getD k 0

/-- Source `World::draw`: clear, then draw p1, p2 and the ball in that order. -/
def World.draw (w : World) (f : Frame) : Option Frame :=
  match World.draw_rect (clearFrame f) w.p1.rect colorA with
  | none => none
  | some f1 =>
    match World.draw_rect f1 w.p2.rect colorB with
    | none => none
    | some f2 => World.draw_rect f2 w.ball.rect colorC

/-- Pixel `(j, i)` is inside `rect`. -/
def coveredBy (rect : Rect) (j i : Int) : Prop :=
  rect.x ≤ j ∧ j < rect.x + rect.width ∧ rect.y ≤ i ∧ i < rect.y + rect.height

instance (rect : Rect) (j i : Int) : Decidable (coveredBy rect j i) := by
  unfold coveredBy
  infer_instance

/-! ## Theorems -/

theorem roundAway_one : roundAway 1 = 1 := by
  rw [roundAway, if_pos (by norm_num)]
  norm_num

theorem roundAway_neg_one : roundAway (-1) = -1 := by
  rw [roundAway, if_neg (by norm_num)]
  rw [Int.ceil_eq_iff]
  norm_num

theorem reflection_up (v : Vector) :
    v.reflection { x := 0, y := 1, w := 0 } = { x := v.x, y := -v.y, w := 0 } := by
  simp only [Vector.reflection, Vector.dot, Vector.mk.injEq]
  refine ⟨by ring, by ring, trivial⟩

theorem reflection_down (v : Vector) :
    v.reflection { x := 0, y := -1, w := 0 } = { x := v.x, y := -v.y, w := 0 } := by
  simp only [Vector.reflection, Vector.dot, Vector.mk.injEq]
  refine ⟨by ring, by ring, trivial⟩

theorem reflection_left (v : Vector) :
    v.reflection { x := 1, y := 0, w := 0 } = { x := -v.x, y := v.y, w := 0 } := by
  simp only [Vector.reflection, Vector.dot, Vector.mk.injEq]
  refine ⟨by ring, by ring, trivial⟩

theorem reflection_right (v : Vector) :
    v.reflection { x := -1, y := 0, w := 0 } = { x := -v.x, y := v.y, w := 0 } := by
  simp only [Vector.reflection, Vector.dot, Vector.mk.injEq]
  refine ⟨by ring, by ring, trivial⟩

theorem update_player_velocity (p : Player) :
    (World.update_player p).velocity = p.velocity := by
  simp only [World.update_player]
  split <;> rfl

theorem update_player_ywh (p : Player) :
    (World.update_player p).rect.y = p.rect.y ∧
    (World.update_player p).rect.width = p.rect.width ∧
    (World.update_player p).rect.height = p.rect.height := by
  simp only [World.update_player]
  split <;> exact ⟨rfl, rfl, rfl⟩

theorem update_p2_velocity (w : World) :
    w.update.p2.velocity = w.aiVelocity := by
  simp only [World.update, World.movedP2]
  exact update_player_velocity _

theorem update_ball_velocity (w : World) :
    w.update.ball.velocity = w.resolveVelocity := rfl

/-- C2: collision resolution is checked in the fixed order p2-overlap,
p1-overlap, left wall (`x ≤ 0`), right wall (`x + width ≥ WIDTH`), all on the
post-move rects; only the first matching condition's reflection is applied,
and when none matches the ball velocity is unchanged.  In particular an
overlap with p2 wins over every other condition. -/
theorem update_collision_priority (w : World) :
    (w.movedBallRect.overlaps w.movedP2.rect = true →
      w.update.ball.velocity = w.ball.velocity.reflection (Vector.mk 0 1 0)) ∧
    (w.movedBallRect.overlaps w.movedP2.rect = false →
      w.movedBallRect.overlaps w.movedP1.rect = true →
      w.update.ball.velocity = w.ball.velocity.reflection (Vector.mk 0 (-1) 0)) ∧
    (w.movedBallRect.overlaps w.movedP2.rect = false →
      w.movedBallRect.overlaps w.movedP1.rect = false →
      w.movedBallRect.x ≤ 0 →
      w.update.ball.velocity = w.ball.velocity.reflection (Vector.mk 1 0 0)) ∧
    (w.movedBallRect.overlaps w.movedP2.rect = false →
      w.movedBallRect.overlaps w.movedP1.rect = false →
      ¬w.movedBallRect.x ≤ 0 →
      w.movedBallRect.x + w.movedBallRect.width ≥ WIDTH →
      w.update.ball.velocity = w.ball.velocity.reflection (Vector.mk (-1) 0 0)) ∧
    (w.movedBallRect.overlaps w.movedP2.rect = false →
      w.movedBallRect.overlaps w.movedP1.rect = false →
      ¬w.movedBallRect.x ≤ 0 →
      ¬w.movedBallRect.x + w.movedBallRect.width ≥ WIDTH →
      w.update.ball.velocity = w.ball.velocity) := by
  rw [update_ball_velocity]
  refine ⟨fun h2 => ?_, fun h2 h1 => ?_, fun h2 h1 hl => ?_, fun h2 h1 hl hr => ?_,
    fun h2 h1 hl hr => ?_⟩
  · simp [World.resolveVelocity, h2]
  · simp [World.resolveVelocity, h2, h1]
  · simp [World.resolveVelocity, h2, h1, hl]
  · simp [World.resolveVelocity, h2, h1, hl, hr]
  · simp [World.resolveVelocity, h2, h1, hl, hr]

theorem update_collision_priority_witness :
    pongBoth.movedBallRect.overlaps pongBoth.movedP2.rect = true ∧
    pongBoth.movedBallRect.x ≤ 0 ∧
    pongBoth.update.ball.velocity = pongBoth.ball.velocity.reflection (Vector.mk 0 1 0) := by
  have hbr : pongBoth.movedBallRect = Rect.mk (-3) 9 5 5 := by
    simp only [pongBoth, World.movedBallRect, roundAway_neg_one, roundAway_one]
    norm_num
  have hai : pongBoth.aiVelocity = 0 := by
    norm_num [pongBoth, World.aiVelocity]
  have hp2 : pongBoth.movedP2 = Player.mk (Rect.mk (-10) 10 32 5) 0 := by
    rw [World.movedP2, hai]
    decide
  have ho : pongBoth.movedBallRect.overlaps pongBoth.movedP2.rect = true := by
    rw [hbr, hp2]
    decide
  exact ⟨ho, by rw [hbr]; decide, (update_collision_priority pongBoth).1 ho⟩

/-- C3: `update_player` commits `x + velocity` exactly when the strict bounds
`0 < x + velocity` and `x + velocity + width < WIDTH` both hold, and
otherwise leaves the player (rect and velocity) unchanged; a committed x lies
strictly between `0` and `WIDTH - width`. -/
theorem update_player_commit_iff (p : Player) :
    (0 < p.rect.x + p.velocity ∧ p.rect.x + p.velocity + p.rect.width < WIDTH →
      World.update_player p =
        Player.mk (Rect.mk (p.rect.x + p.velocity) p.rect.y p.rect.width p.rect.height)
          p.velocity) ∧
    (¬(0 < p.rect.x + p.velocity ∧ p.rect.x + p.velocity + p.rect.width < WIDTH) →
      World.update_player p = p) ∧
    (World.update_player p).velocity = p.velocity ∧
    (0 < p.rect.x + p.velocity ∧ p.rect.x + p.velocity + p.rect.width < WIDTH →
      0 < (World.update_player p).rect.x ∧
        (World.update_player p).rect.x < WIDTH - p.rect.width) := by
  simp only [World.update_player]
  split
  case isTrue h =>
    refine ⟨fun _ => rfl, fun hc => absurd ⟨h.1, h.2⟩ hc, rfl, fun _ => ?_⟩
    dsimp only
    omega
  case isFalse h =>
    refine ⟨fun hc => absurd hc (by exact fun hc => h ⟨hc.1, hc.2⟩), fun _ => rfl, rfl,
      fun hc => absurd hc (by exact fun hc => h ⟨hc.1, hc.2⟩)⟩

theorem update_player_commit_iff_witness :
    (World.update_player (Player.mk (Rect.mk 144 234 32 5) 2) =
      Player.mk (Rect.mk 146 234 32 5) 2) ∧
    (World.update_player (Player.mk (Rect.mk 0 234 32 5) (-2)) =
      Player.mk (Rect.mk 0 234 32 5) (-2)) ∧
    0 < (World.update_player (Player.mk (Rect.mk 144 234 32 5) 2)).rect.x ∧
    (World.update_player (Player.mk (Rect.mk 144 234 32 5) 2)).rect.x < WIDTH - 32 := by
  have h1 := update_player_commit_iff (Player.mk (Rect.mk 144 234 32 5) 2)
  have h2 := update_player_commit_iff (Player.mk (Rect.mk 0 234 32 5) (-2))
  have hc : (0:Int) < 144 + 2 ∧ (144:Int) + 2 + 32 < WIDTH := by decide
  exact ⟨h1.1 hc, h2.2.1 (by decide), (h1.2.2.2 hc).1, (h1.2.2.2 hc).2⟩

/-- C5: when the moved ball overlaps neither paddle and touches neither side
wall, `update` leaves the ball velocity unchanged, whatever the ball's `y`
(there is no top or bottom edge check). -/
theorem update_no_vertical_bounce (w : World)
    (h2 : w.movedBallRect.overlaps w.movedP2.rect = false)
    (h1 : w.movedBallRect.overlaps w.movedP1.rect = false)
    (hl : 0 < w.movedBallRect.x)
    (hr : w.movedBallRect.x + w.movedBallRect.width < WIDTH) :
    w.update.ball.velocity = w.ball.velocity := by
  rw [update_ball_velocity]
  have hl' : ¬w.movedBallRect.x ≤ 0 := by omega
  have hr' : ¬w.movedBallRect.x + w.movedBallRect.width ≥ WIDTH := by omega
  simp [World.resolveVelocity, h2, h1, hl', hr']

theorem update_no_vertical_bounce_witness :
    pongAbove.movedBallRect.y < 0 ∧
    pongAbove.update.ball.velocity = pongAbove.ball.velocity := by
  have hbr : pongAbove.movedBallRect = Rect.mk 51 (-31) 5 5 := by
    simp only [pongAbove, World.movedBallRect, roundAway_neg_one, roundAway_one]
    norm_num
  have hai : pongAbove.aiVelocity = 0 := by
    norm_num [pongAbove, World.aiVelocity]
  have hp2 : pongAbove.movedP2 = Player.mk (Rect.mk 100 1 32 5) 0 := by
    rw [World.movedP2, hai]
    decide
  have hp1 : pongAbove.movedP1 = Player.mk (Rect.mk 100 234 32 5) 0 := by
    rw [World.movedP1]
    decide
  refine ⟨by rw [hbr]; decide, update_no_vertical_bounce pongAbove ?_ ?_ ?_ ?_⟩
  · rw [hbr, hp2]; decide
  · rw [hbr, hp1]; decide
  · rw [hbr]; decide
  · rw [hbr]; decide

/-- C6: `reflection` returns the components of `v - 2*(v·n)*n` in `x` and
`y` (with the dot product ignoring `w`), and resets `w` to the default `0`
regardless of the inputs' `w` fields. -/
theorem reflection_formula (v n : Vector) :
    (v.reflection n).x = v.x - 2 * v.dot n * n.x ∧
    (v.reflection n).y = v.y - 2 * v.dot n * n.y ∧
    (v.reflection n).w = 0 :=
  ⟨rfl, rfl, rfl⟩

/-- C7 fails as stated: double reflection resets `w` to `0`, so a vector with
nonzero `w` is not restored even for a unit normal. -/
theorem reflection_double_ce :
    ¬(((Vector.mk 1 1 5).reflection (Vector.mk 0 1 0)).reflection (Vector.mk 0 1 0)
        = Vector.mk 1 1 5) := by
  rw [reflection_up, reflection_up]
  simp only [Vector.mk.injEq]
  norm_num

/-- C7 amended: for every unit normal (`n·n = 1`), double reflection restores
the `x` and `y` components exactly, while the `w` component is reset to `0`
(so the full vector is restored exactly when `v.w = 0`). -/
theorem reflection_double (v n : Vector) (hn : n.dot n = 1) :
    ((v.reflection n).reflection n).x = v.x ∧
    ((v.reflection n).reflection n).y = v.y ∧
    ((v.reflection n).reflection n).w = 0 := by
  have h : n.x * n.x + n.y * n.y = 1 := by simpa [Vector.dot] using hn
  refine ⟨?_, ?_, rfl⟩
  · simp only [Vector.reflection, Vector.dot]
    linear_combination (4 * (v.x * n.x + v.y * n.y) * n.x) * h
  · simp only [Vector.reflection, Vector.dot]
    linear_combination (4 * (v.x * n.x + v.y * n.y) * n.y) * h

theorem reflection_double_witness :
    (((Vector.mk 3 4 0).reflection (Vector.mk 0 1 0)).reflection (Vector.mk 0 1 0)).x
        = (Vector.mk 3 4 0).x ∧
    (((Vector.mk 3 4 0).reflection (Vector.mk 0 1 0)).reflection (Vector.mk 0 1 0)).y
        = (Vector.mk 3 4 0).y ∧
    (((Vector.mk 3 4 0).reflection (Vector.mk 0 1 0)).reflection (Vector.mk 0 1 0)).w
        = 0 :=
  reflection_double (Vector.mk 3 4 0) (Vector.mk 0 1 0) (by norm_num [Vector.dot])

theorem resolveVelocity_cases (w : World) :
    w.resolveVelocity = w.ball.velocity ∨
    w.resolveVelocity = Vector.mk w.ball.velocity.x (-w.ball.velocity.y) 0 ∨
    w.resolveVelocity = Vector.mk (-w.ball.velocity.x) w.ball.velocity.y 0 := by
  unfold World.resolveVelocity
  split_ifs
  · exact Or.inr (Or.inl (reflection_up _))
  · exact Or.inr (Or.inl (reflection_down _))
  · exact Or.inr (Or.inr (reflection_left _))
  · exact Or.inr (Or.inr (reflection_right _))
  · exact Or.inl rfl

theorem velInv_step (w : World)
    (h : (w.ball.velocity.x = 1 ∨ w.ball.velocity.x = -1) ∧
         (w.ball.velocity.y = 1 ∨ w.ball.velocity.y = -1)) :
    (w.update.ball.velocity.x = 1 ∨ w.update.ball.velocity.x = -1) ∧
    (w.update.ball.velocity.y = 1 ∨ w.update.ball.velocity.y = -1) := by
  rw [update_ball_velocity]
  rcases resolveVelocity_cases w with hc | hc | hc <;> rw [hc]
  · exact h
  · refine ⟨h.1, ?_⟩
    rcases h.2 with h2 | h2 <;> rw [h2] <;> norm_num
  · refine ⟨?_, h.2⟩
    rcases h.1 with h2 | h2 <;> rw [h2] <;> norm_num

/-- C1: in every state reachable from `World::new` by repeated `update`
calls, both ball velocity components are exactly `±1`: each reflection only
flips the component along its collision normal. -/
theorem reachable_ball_velocity_pm_one (w : World) (h : World.Reachable w) :
    (w.ball.velocity.x = 1 ∨ w.ball.velocity.x = -1) ∧
    (w.ball.velocity.y = 1 ∨ w.ball.velocity.y = -1) := by
  induction h with
  | init => exact ⟨Or.inl rfl, Or.inl rfl⟩
  | step _ ih => exact velInv_step _ ih

theorem reachable_ball_velocity_pm_one_witness :
    (World.new.update.ball.velocity.x = 1 ∨ World.new.update.ball.velocity.x = -1) ∧
    (World.new.update.ball.velocity.y = 1 ∨ World.new.update.ball.velocity.y = -1) :=
  reachable_ball_velocity_pm_one _ (World.Reachable.step World.Reachable.init)

theorem aiVelocity_cases (w : World) :
    w.aiVelocity = 1 ∨ w.aiVelocity = -1 ∨ w.aiVelocity = w.p2.velocity := by
  unfold World.aiVelocity
  split_ifs
  · exact Or.inl rfl
  · exact Or.inr (Or.inl rfl)
  · exact Or.inr (Or.inr rfl)

theorem p2_velocity_step (w : World)
    (h : w.p2.velocity = 2 ∨ w.p2.velocity = 1 ∨ w.p2.velocity = -1) :
    w.update.p2.velocity = 2 ∨ w.update.p2.velocity = 1 ∨ w.update.p2.velocity = -1 := by
  rw [update_p2_velocity]
  rcases aiVelocity_cases w with hc | hc | hc <;> rw [hc]
  · exact Or.inr (Or.inl rfl)
  · exact Or.inr (Or.inr rfl)
  · exact h

theorem p2_speed_one_step (w : World)
    (h : w.p2.velocity = 1 ∨ w.p2.velocity = -1) :
    w.update.p2.velocity = 1 ∨ w.update.p2.velocity = -1 := by
  rw [update_p2_velocity]
  rcases aiVelocity_cases w with hc | hc | hc <;> rw [hc]
  · exact Or.inl rfl
  · exact Or.inr rfl
  · exact h

theorem reachable_p2_mem (w : World) (h : World.Reachable w) :
    w.p2.velocity = 2 ∨ w.p2.velocity = 1 ∨ w.p2.velocity = -1 := by
  induction h with
  | init => exact Or.inl rfl
  | step _ ih => exact p2_velocity_step _ ih

/-- C10: in every reachable state `p2.velocity ∈ {2, 1, -1}`, hence never
`0`; and once the speed is `1` it stays `1` after every further update. -/
theorem reachable_p2_velocity_inv (w : World) (h : World.Reachable w) :
    (w.p2.velocity = 2 ∨ w.p2.velocity = 1 ∨ w.p2.velocity = -1) ∧
    w.p2.velocity ≠ 0 ∧
    ((w.p2.velocity = 1 ∨ w.p2.velocity = -1) →
      (w.update.p2.velocity = 1 ∨ w.update.p2.velocity = -1)) := by
  have mem := reachable_p2_mem w h
  refine ⟨mem, ?_, fun h1 => p2_speed_one_step w h1⟩
  rcases mem with hm | hm | hm <;> rw [hm] <;> decide

theorem reachable_p2_velocity_inv_witness :
    (World.new.p2.velocity = 2 ∨ World.new.p2.velocity = 1 ∨ World.new.p2.velocity = -1) ∧
    World.new.p2.velocity ≠ 0 ∧
    ((World.new.p2.velocity = 1 ∨ World.new.p2.velocity = -1) →
      (World.new.update.p2.velocity = 1 ∨ World.new.update.p2.velocity = -1)) :=
  reachable_p2_velocity_inv _ World.Reachable.init

theorem overlaps_iff (a b : Rect) :
    a.overlaps b = true ↔
      ((a.y ≤ b.y + b.height ∧ a.y + a.height ≥ b.y) ∧
       (a.x ≤ b.x + b.width ∧ a.x + a.width ≥ b.x)) := by
  simp [Rect.overlaps]

theorem traceState_zero : traceState 0 = World.new := by decide

theorem traceState_step (n : Nat) (hn : n ≤ 153) :
    (traceState n).update = traceState (n + 1) := by
  have hai : (traceState n).aiVelocity = 2 := by
    norm_num [World.aiVelocity, traceState]
  have hp1 : (traceState n).movedP1 = Player.mk (Rect.mk 160 234 32 5) 0 := by
    rw [World.movedP1]
    show World.update_player (Player.mk (Rect.mk 160 234 32 5) 0) =
      Player.mk (Rect.mk 160 234 32 5) 0
    decide
  have hp2 : (traceState n).movedP2 =
      Player.mk (Rect.mk (160 + 2 * min ((n : Int) + 1) 63) 1 32 5) 2 := by
    rw [World.movedP2, hai]
    show World.update_player (Player.mk (Rect.mk (160 + 2 * min (n : Int) 63) 1 32 5) 2) = _
    simp only [World.update_player, WIDTH]
    split_ifs with h
    · simp only [Player.mk.injEq, Rect.mk.injEq, and_true, true_and]
      omega
    · simp only [Player.mk.injEq, Rect.mk.injEq, and_true, true_and]
      omega
  have hbr : (traceState n).movedBallRect =
      Rect.mk (160 + (n : Int) + 1) (120 + (n : Int) + 1) 5 5 := by
    simp only [World.movedBallRect, traceState, roundAway_one]
  have hrv : (traceState n).resolveVelocity = Vector.mk 1 1 0 := by
    unfold World.resolveVelocity
    rw [hbr, hp2, hp1]
    split_ifs with o2 o1 wl wr
    · rw [overlaps_iff] at o2
      dsimp only at o2
      omega
    · rw [overlaps_iff] at o1
      dsimp only at o1
      omega
    · dsimp only at wl
      omega
    · dsimp only at wr
      rw [WIDTH] at wr
      omega
    · rfl
  show World.update _ = _
  unfold World.update
  rw [hp1, hp2, hbr, hrv]
  simp only [traceState, World.mk.injEq, Player.mk.injEq, Ball.mk.injEq, Rect.mk.injEq,
    Vector.mk.injEq, and_true, true_and]
  omega

theorem trace_eq (n : Nat) (hn : n ≤ 154) :
    World.update^[n] World.new = traceState n := by
  induction n with
  | zero => exact traceState_zero.symm
  | succ m ih =>
    rw [Function.iterate_succ_apply', ih (by omega)]
    exact traceState_step m (by omega)

theorem reachable_iterate (n : Nat) :
    World.Reachable (World.update^[n] World.new) := by
  induction n with
  | zero => exact World.Reachable.init
  | succ m ih =>
    rw [Function.iterate_succ_apply']
    exact World.Reachable.step ih

theorem pong155_eq : World.update^[155] World.new = pong155 := by
  have h154 : World.update^[155] World.new = (traceState 154).update := by
    rw [Function.iterate_succ_apply', trace_eq 154 (by omega)]
  have ht : traceState 154 =
      World.mk (Player.mk (Rect.mk 160 234 32 5) 0)
        (Ball.mk (Rect.mk 314 274 5 5) (Vector.mk 1 1 0))
        (Player.mk (Rect.mk 286 1 32 5) 2) := by decide
  rw [h154, ht]
  set s : World := World.mk (Player.mk (Rect.mk 160 234 32 5) 0)
    (Ball.mk (Rect.mk 314 274 5 5) (Vector.mk 1 1 0))
    (Player.mk (Rect.mk 286 1 32 5) 2) with hs
  have hai : s.aiVelocity = 2 := by
    norm_num [World.aiVelocity, hs]
  have hp1 : s.movedP1 = Player.mk (Rect.mk 160 234 32 5) 0 := by
    rw [World.movedP1]
    decide
  have hp2 : s.movedP2 = Player.mk (Rect.mk 286 1 32 5) 2 := by
    rw [World.movedP2, hai]
    decide
  have hbr : s.movedBallRect = Rect.mk 315 275 5 5 := by
    simp only [World.movedBallRect, hs, roundAway_one]
    norm_num
  have hrv : s.resolveVelocity = Vector.mk (-1) 1 0 := by
    unfold World.resolveVelocity
    rw [hbr, hp2, hp1]
    rw [if_neg (by decide), if_neg (by decide), if_neg (by decide), if_pos (by decide)]
    exact reflection_right _
  show World.update s = _
  unfold World.update
  rw [hp1, hp2, hbr, hrv]
  rfl

/-- C4 fails as stated: the reachable state after 155 ticks still has
`p2.velocity = 2`, and the correction step of the next `update` sets it to
`-1`, changing its absolute value from 2 to 1. -/
theorem ai_correction_speed_ce :
    World.Reachable pong155 ∧
    pong155.p2.velocity = 2 ∧
    pong155.update.p2.velocity = -1 ∧
    ¬|pong155.update.p2.velocity| = |pong155.p2.velocity| := by
  have hv : pong155.update.p2.velocity = -1 := by
    rw [update_p2_velocity]
    norm_num [World.aiVelocity, pong155]
  refine ⟨?_, rfl, hv, ?_⟩
  · rw [← pong155_eq]
    exact reachable_iterate 155
  · rw [hv]
    decide

/-- C4 amended: the correction step sets `p2.velocity` to `+1` when the ball
moves rightward while p2 moves leftward, to `-1` in the symmetric case, and
otherwise leaves it unchanged; it preserves `|p2.velocity|` whenever that
absolute value is already 1, but the first correction from the initial
velocity 2 changes the speed from 2 to 1. -/
theorem ai_direction_correction (w : World) :
    (w.ball.velocity.x > 0 ∧ w.p2.velocity < 0 → w.update.p2.velocity = 1) ∧
    (w.ball.velocity.x < 0 ∧ w.p2.velocity > 0 → w.update.p2.velocity = -1) ∧
    (¬(w.ball.velocity.x > 0 ∧ w.p2.velocity < 0) →
      ¬(w.ball.velocity.x < 0 ∧ w.p2.velocity > 0) →
      w.update.p2.velocity = w.p2.velocity) ∧
    (|w.p2.velocity| = 1 → |w.update.p2.velocity| = 1) := by
  rw [update_p2_velocity]
  refine ⟨fun h => ?_, fun h => ?_, fun h1 h2 => ?_, fun h => ?_⟩
  · unfold World.aiVelocity
    rw [if_pos h]
  · unfold World.aiVelocity
    rw [if_neg (fun hc => lt_asymm h.1 hc.1), if_pos h]
  · unfold World.aiVelocity
    rw [if_neg h1, if_neg h2]
  · rcases aiVelocity_cases w with hc | hc | hc <;> rw [hc]
    · decide
    · decide
    · exact h

theorem ai_direction_correction_witness :
    pongFlip.update.p2.velocity = -1 ∧ |pongFlip.update.p2.velocity| = 1 := by
  have h := ai_direction_correction pongFlip
  have hflip : pongFlip.ball.velocity.x < 0 ∧ pongFlip.p2.velocity > 0 := by
    constructor
    · norm_num [pongFlip]
    · decide
  exact ⟨h.2.1 hflip, h.2.2.2 (by decide)⟩

theorem pixIdx_bound (j i : Int) (h0 : 0 ≤ j) (hW : j < WIDTH)
    (hi0 : 0 ≤ i) (hiH : i < HEIGHT) :
    pixIdx j i + 4 ≤ 320 * 240 * 4 := by
  unfold pixIdx WIDTH at *
  unfold HEIGHT at hiH
  omega

theorem pixIdx_not_in_range (j i j' i' : Int)
    (h0 : 0 ≤ j) (hW : j < WIDTH) (hi0 : 0 ≤ i) (hiH : i < HEIGHT)
    (h0' : 0 ≤ j') (hW' : j' < WIDTH) (hi0' : 0 ≤ i') (hiH' : i' < HEIGHT)
    (hne : j ≠ j' ∨ i ≠ i') (d : Nat) (hd : d < 4) :
    ¬(pixIdx j' i' ≤ pixIdx j i + d ∧ pixIdx j i + d < pixIdx j' i' + 4) := by
  unfold pixIdx WIDTH at *
  unfold HEIGHT at hiH hiH'
  omega

theorem drawRectCols_spec (color : Nat → Nat) (i : Int) (hi0 : 0 ≤ i) (hiH : i < HEIGHT) :
    ∀ (n : Nat) (j0 : Int) (f : Frame), f.len = 320 * 240 * 4 →
      ∃ f2, drawRectCols f i j0 n color = some f2 ∧ f2.len = f.len ∧
        (∀ (j : Int) (d : Nat), 0 ≤ j → j < WIDTH → d < 4 →
          f2.data (pixIdx j i + d) =
            if j0 ≤ j ∧ j < j0 + (n : Int) then color d
            else f.data (pixIdx j i + d)) ∧
        (∀ b : Nat,
          (∀ j : Int, 0 ≤ j → j < WIDTH → ¬(pixIdx j i ≤ b ∧ b < pixIdx j i + 4)) →
          f2.data b = f.data b) := by
  intro n
  induction n with
  | zero =>
    intro j0 f hf
    refine ⟨f, rfl, rfl, fun j d h0 hW hd => ?_, fun b hb => rfl⟩
    rw [if_neg (by omega)]
  | succ m ih =>
    intro j0 f hf
    by_cases hskip : j0 ≥ WIDTH ∨ j0 < 0
    · obtain ⟨f2, heq, hlen, hpt, hun⟩ := ih (j0 + 1) f hf
      refine ⟨f2, ?_, hlen, fun j d h0 hW hd => ?_, hun⟩
      · simp only [drawRectCols]
        rw [if_pos hskip]
        exact heq
      · rw [hpt j d h0 hW hd]
        by_cases hc : j0 + 1 ≤ j ∧ j < j0 + 1 + (m : Int)
        · rw [if_pos hc, if_pos (by omega)]
        · rw [if_neg hc, if_neg (by omega)]
    · have hj0 : 0 ≤ j0 := by omega
      have hjW : j0 < WIDTH := by omega
      have hw : pixIdx j0 i + 4 ≤ f.len := by
        rw [hf]
        exact pixIdx_bound j0 i hj0 hjW hi0 hiH
      have hws : writeSlice f (pixIdx j0 i) color =
          some ⟨f.len, fun b =>
            if pixIdx j0 i ≤ b ∧ b < pixIdx j0 i + 4 then color (b - pixIdx j0 i)
            else f.data b⟩ := by
        unfold writeSlice
        rw [if_pos hw]
      obtain ⟨f2, heq, hlen, hpt, hun⟩ := ih (j0 + 1)
        ⟨f.len, fun b =>
          if pixIdx j0 i ≤ b ∧ b < pixIdx j0 i + 4 then color (b - pixIdx j0 i)
          else f.data b⟩ hf
      refine ⟨f2, ?_, hlen, fun j d h0 hW hd => ?_, fun b hb => ?_⟩
      · simp only [drawRectCols]
        rw [if_neg hskip, hws]
        exact heq
      · rw [hpt j d h0 hW hd]
        by_cases hc : j0 + 1 ≤ j ∧ j < j0 + 1 + (m : Int)
        · rw [if_pos hc, if_pos (by omega)]
        · rw [if_neg hc]
          by_cases hj : j = j0
          · subst hj
            rw [if_pos (by omega)]
            show (if pixIdx j i ≤ pixIdx j i + d ∧ pixIdx j i + d < pixIdx j i + 4
                then color (pixIdx j i + d - pixIdx j i) else f.data (pixIdx j i + d))
              = color d
            rw [if_pos (by omega)]
            congr 1
            omega
          · rw [if_neg (by omega)]
            show (if pixIdx j0 i ≤ pixIdx j i + d ∧ pixIdx j i + d < pixIdx j0 i + 4
                then color (pixIdx j i + d - pixIdx j0 i) else f.data (pixIdx j i + d))
              = f.data (pixIdx j i + d)
            rw [if_neg (pixIdx_not_in_range j i j0 i h0 hW hi0 hiH hj0 hjW hi0 hiH
              (Or.inl hj) d hd)]
      · rw [hun b hb]
        show (if pixIdx j0 i ≤ b ∧ b < pixIdx j0 i + 4 then color (b - pixIdx j0 i)
            else f.data b) = f.data b
        rw [if_neg (hb j0 hj0 hjW)]

theorem drawRectRows_spec (color : Nat → Nat) (rect : Rect) :
    ∀ (n : Nat) (i0 : Int) (f : Frame), f.len = 320 * 240 * 4 →
      ∃ f2, drawRectRows f rect i0 n color = some f2 ∧ f2.len = f.len ∧
        (∀ (j i : Int) (d : Nat), 0 ≤ j → j < WIDTH → 0 ≤ i → i < HEIGHT → d < 4 →
          f2.data (pixIdx j i + d) =
            if (i0 ≤ i ∧ i < i0 + (n : Int)) ∧
               (rect.x ≤ j ∧ j < rect.x + (rect.width.toNat : Int)) then color d
            else f.data (pixIdx j i + d)) := by
  intro n
  induction n with
  | zero =>
    intro i0 f hf
    refine ⟨f, rfl, rfl, fun j i d h0 hW hi0 hiH hd => ?_⟩
    rw [if_neg (by omega)]
  | succ m ih =>
    intro i0 f hf
    by_cases hskip : i0 ≥ HEIGHT ∨ i0 < 0
    · obtain ⟨f2, heq, hlen, hpt⟩ := ih (i0 + 1) f hf
      refine ⟨f2, ?_, hlen, fun j i d h0 hW hi0 hiH hd => ?_⟩
      · simp only [drawRectRows]
        rw [if_pos hskip]
        exact heq
      · rw [hpt j i d h0 hW hi0 hiH hd]
        by_cases hc : (i0 + 1 ≤ i ∧ i < i0 + 1 + (m : Int)) ∧
            (rect.x ≤ j ∧ j < rect.x + (rect.width.toNat : Int))
        · rw [if_pos hc, if_pos (by omega)]
        · rw [if_neg hc, if_neg (by omega)]
    · have hi00 : 0 ≤ i0 := by omega
      have hi0H : i0 < HEIGHT := by omega
      obtain ⟨f1, heq1, hlen1, hpt1, hun1⟩ :=
        drawRectCols_spec color i0 hi00 hi0H rect.width.toNat rect.x f hf
      obtain ⟨f2, heq2, hlen2, hpt2⟩ := ih (i0 + 1) f1 (hlen1.trans hf)
      refine ⟨f2, ?_, hlen2.trans hlen1, fun j i d h0 hW hi0 hiH hd => ?_⟩
      · simp only [drawRectRows]
        rw [if_neg hskip, heq1]
        exact heq2
      · rw [hpt2 j i d h0 hW hi0 hiH hd]
        by_cases hc : (i0 + 1 ≤ i ∧ i < i0 + 1 + (m : Int)) ∧
            (rect.x ≤ j ∧ j < rect.x + (rect.width.toNat : Int))
        · rw [if_pos hc, if_pos (by omega)]
        · rw [if_neg hc]
          by_cases hi : i = i0
          · subst hi
            rw [hpt1 j d h0 hW hd]
            by_cases hcol : rect.x ≤ j ∧ j < rect.x + (rect.width.toNat : Int)
            · rw [if_pos hcol, if_pos (by omega)]
            · rw [if_neg hcol, if_neg (by omega)]
          · rw [hun1 (pixIdx j i + d)
              (fun j2 h02 hW2 => pixIdx_not_in_range j i j2 i0
                h0 hW hi0 hiH h02 hW2 hi00 hi0H (Or.inr hi) d hd)]
            rw [if_neg (by omega)]

theorem draw_rect_spec (f : Frame) (rect : Rect) (color : Nat → Nat)
    (hf : f.len = 320 * 240 * 4) :
    ∃ f2, World.draw_rect f rect color = some f2 ∧ f2.len = f.len ∧
      (∀ (j i : Int) (d : Nat), 0 ≤ j → j < WIDTH → 0 ≤ i → i < HEIGHT → d < 4 →
        f2.data (pixIdx j i + d) =
          if coveredBy rect j i then color d else f.data (pixIdx j i + d)) := by
  obtain ⟨f2, heq, hlen, hpt⟩ :=
    drawRectRows_spec color rect rect.height.toNat rect.y f hf
  refine ⟨f2, heq, hlen, fun j i d h0 hW hi0 hiH hd => ?_⟩
  rw [hpt j i d h0 hW hi0 hiH hd]
  by_cases hc : coveredBy rect j i
  · rw [if_pos (by unfold coveredBy at hc; omega), if_pos hc]
  · rw [if_neg (by unfold coveredBy at hc; omega), if_neg hc]

/-- C9: for an arbitrary `Rect` (negative positions and sizes included) and a
frame of length `WIDTH*HEIGHT*4`, `draw_rect` succeeds: every slice it writes
is inside the buffer (a failed bounds check is `none` in this model), and
out-of-range rows and columns are silently skipped. -/
theorem draw_rect_safe (f : Frame) (rect : Rect) (color : Nat → Nat)
    (hf : f.len = 320 * 240 * 4) :
    ∃ f2, World.draw_rect f rect color = some f2 ∧ f2.len = f.len := by
  obtain ⟨f2, heq, hlen, _⟩ := draw_rect_spec f rect color hf
  exact ⟨f2, heq, hlen⟩

theorem draw_rect_safe_witness :
    ∃ f2, World.draw_rect ⟨320 * 240 * 4, fun _ => 0⟩ (Rect.mk (-7) 230 40 20) colorA
        = some f2 ∧ f2.len = 320 * 240 * 4 :=
  draw_rect_safe ⟨320 * 240 * 4, fun _ => 0⟩ (Rect.mk (-7) 230 40 20) colorA rfl

/-- C8: `draw` clears the whole buffer and then fills p1's rect with color A,
p2's with color B and the ball's with color C, in that order, at the byte
offsets `(x + y*WIDTH)*4`: every in-range pixel ends with the color of the
last rect covering it, and pixels covered by no rect stay zeroed; when p1's
rect lies fully inside the screen, the set of pixels showing color A after
p1's fill is exactly p1's pixel grid, of size `width*height`. -/
theorem draw_renders (w : World) (f : Frame) (hf : f.len = 320 * 240 * 4) :
    ∃ f1 f2 f3,
      World.draw_rect (clearFrame f) w.p1.rect colorA = some f1 ∧
      World.draw_rect f1 w.p2.rect colorB = some f2 ∧
      World.draw_rect f2 w.ball.rect colorC = some f3 ∧
      w.draw f = some f3 ∧
      (∀ (j i : Int) (d : Nat), 0 ≤ j → j < WIDTH → 0 ≤ i → i < HEIGHT → d < 4 →
        f3.data (pixIdx j i + d) =
          if coveredBy w.ball.rect j i then colorC d
          else if coveredBy w.p2.rect j i then colorB d
          else if coveredBy w.p1.rect j i then colorA d
          else 0) ∧
      (0 ≤ w.p1.rect.x → w.p1.rect.x + w.p1.rect.width ≤ WIDTH →
       0 ≤ w.p1.rect.y → w.p1.rect.y + w.p1.rect.height ≤ HEIGHT →
        (Finset.Ico w.p1.rect.x (w.p1.rect.x + w.p1.rect.width) ×ˢ
          Finset.Ico w.p1.rect.y (w.p1.rect.y + w.p1.rect.height)).card =
            w.p1.rect.width.toNat * w.p1.rect.height.toNat ∧
        (∀ (j i : Int), 0 ≤ j → j < WIDTH → 0 ≤ i → i < HEIGHT →
          ((j, i) ∈ Finset.Ico w.p1.rect.x (w.p1.rect.x + w.p1.rect.width) ×ˢ
              Finset.Ico w.p1.rect.y (w.p1.rect.y + w.p1.rect.height) ↔
            (f1.data (pixIdx j i) = 255 ∧ f1.data (pixIdx j i + 1) = 0 ∧
             f1.data (pixIdx j i + 2) = 0 ∧ f1.data (pixIdx j i + 3) = 255)))) := by
  obtain ⟨f1, heq1, hlen1, hpt1⟩ := draw_rect_spec (clearFrame f) w.p1.rect colorA hf
  obtain ⟨f2, heq2, hlen2, hpt2⟩ := draw_rect_spec f1 w.p2.rect colorB (hlen1.trans hf)
  obtain ⟨f3, heq3, hlen3, hpt3⟩ :=
    draw_rect_spec f2 w.ball.rect colorC (hlen2.trans (hlen1.trans hf))
  refine ⟨f1, f2, f3, heq1, heq2, heq3, ?_, ?_, ?_⟩
  · unfold World.draw
    rw [heq1]
    dsimp only
    rw [heq2]
    dsimp only
    exact heq3
  · intro j i d h0 hW hi0 hiH hd
    rw [hpt3 j i d h0 hW hi0 hiH hd]
    by_cases hc3 : coveredBy w.ball.rect j i
    · rw [if_pos hc3, if_pos hc3]
    · rw [if_neg hc3, if_neg hc3, hpt2 j i d h0 hW hi0 hiH hd]
      by_cases hc2 : coveredBy w.p2.rect j i
      · rw [if_pos hc2, if_pos hc2]
      · rw [if_neg hc2, if_neg hc2, hpt1 j i d h0 hW hi0 hiH hd]
        by_cases hc1 : coveredBy w.p1.rect j i
        · rw [if_pos hc1, if_pos hc1]
        · rw [if_neg hc1, if_neg hc1]
          rfl
  · intro hx1 hx2 hy1 hy2
    constructor
    · rw [Finset.card_product, Int.card_Ico, Int.card_Ico, add_sub_cancel_left,
        add_sub_cancel_left]
    · intro j i h0 hW hi0 hiH
      have hcov : (j, i) ∈ Finset.Ico w.p1.rect.x (w.p1.rect.x + w.p1.rect.width) ×ˢ
          Finset.Ico w.p1.rect.y (w.p1.rect.y + w.p1.rect.height) ↔
          coveredBy w.p1.rect j i := by
        rw [Finset.mem_product, Finset.mem_Ico, Finset.mem_Ico]
        unfold coveredBy
        tauto
      have e0 := hpt1 j i 0 h0 hW hi0 hiH (by omega)
      have e1 := hpt1 j i 1 h0 hW hi0 hiH (by omega)
      have e2 := hpt1 j i 2 h0 hW hi0 hiH (by omega)
      have e3 := hpt1 j i 3 h0 hW hi0 hiH (by omega)
      rw [Nat.add_zero] at e0
      rw [hcov]
      by_cases hc : coveredBy w.p1.rect j i
      · rw [if_pos hc] at e0 e1 e2 e3
        exact ⟨fun _ => ⟨e0, e1, e2, e3⟩, fun _ => hc⟩
      · refine ⟨fun hcv => absurd hcv hc, fun hbytes => ?_⟩
        exfalso
        rw [if_neg hc] at e0
        rw [e0] at hbytes
        simp [clearFrame] at hbytes

theorem draw_renders_witness :
    ∃ f1 f2 f3,
      World.draw_rect (clearFrame ⟨320 * 240 * 4, fun _ => 7⟩) World.new.p1.rect colorA
          = some f1 ∧
      World.draw_rect f1 World.new.p2.rect colorB = some f2 ∧
      World.draw_rect f2 World.new.ball.rect colorC = some f3 ∧
      World.new.draw ⟨320 * 240 * 4, fun _ => 7⟩ = some f3 ∧
      (∀ (j i : Int) (d : Nat), 0 ≤ j → j < WIDTH → 0 ≤ i → i < HEIGHT → d < 4 →
        f3.data (pixIdx j i + d) =
          if coveredBy World.new.ball.rect j i then colorC d
          else if coveredBy World.new.p2.rect j i then colorB d
          else if coveredBy World.new.p1.rect j i then colorA d
          else 0) ∧
      (0 ≤ World.new.p1.rect.x → World.new.p1.rect.x + World.new.p1.rect.width ≤ WIDTH →
       0 ≤ World.new.p1.rect.y → World.new.p1.rect.y + World.new.p1.rect.height ≤ HEIGHT →
        (Finset.Ico World.new.p1.rect.x (World.new.p1.rect.x + World.new.p1.rect.width) ×ˢ
          Finset.Ico World.new.p1.rect.y
            (World.new.p1.rect.y + World.new.p1.rect.height)).card =
            World.new.p1.rect.width.toNat * World.new.p1.rect.height.toNat ∧
        (∀ (j i : Int), 0 ≤ j → j < WIDTH → 0 ≤ i → i < HEIGHT →
          ((j, i) ∈ Finset.Ico World.new.p1.rect.x
              (World.new.p1.rect.x + World.new.p1.rect.width) ×ˢ
              Finset.Ico World.new.p1.rect.y
                (World.new.p1.rect.y + World.new.p1.rect.height) ↔
            (f1.data (pixIdx j i) = 255 ∧ f1.data (pixIdx j i + 1) = 0 ∧
             f1.data (pixIdx j i + 2) = 0 ∧ f1.data (pixIdx j i + 3) = 255)))) :=
  draw_renders World.new ⟨320 * 240 * 4, fun _ => 7⟩ rfl
